import Mathlib

/-!
Verification of the SQLit client bindings (`sqlit.c++` / `sqlit.h`).

The development shallowly embeds the parts of the code the claims touch:
bytes are `Nat` values below 256, byte buffers are `List Nat`, machine
integers are `Nat`/`Int` with explicit `% 2^w` where overflow matters,
IEEE-754 doubles are carried as their 64-bit bit patterns, and the
asynchronous pool is a small-step transition system whose suspension
points are explicit transitions.
-/

set_option maxRecDepth 8192

namespace SQLit

/-! ### Little-endian integer helpers (`writeLE` / `readLE`) -/

/-- Embeds `writeLE<T>`: byte `i` of the output is `(value >> (i*8)) & 0xFF`. -/
def writeLE (k : Nat) (v : Nat) : List Nat :=
  (List.range k).map (fun i => v / 256 ^ i % 256)

/-- Embeds `readLE<T>`: accumulates `buf[i] << (i*8)` over the buffer. -/
def readLE (buf : List Nat) : Nat :=
  buf.foldr (fun b acc => b + 256 * acc) 0

@[simp] theorem length_writeLE (k v : Nat) : (writeLE k v).length = k := by
  simp [writeLE]

theorem writeLE_succ (k v : Nat) :
    writeLE (k + 1) v = v % 256 :: writeLE k (v / 256) := by
  simp only [writeLE, List.range_succ_eq_map, List.map_cons, List.map_map,
    pow_zero, Nat.div_one]
  congr 1
  apply List.map_congr_left
  intro i _
  simp [Function.comp, pow_succ, Nat.div_div_eq_div_mul, Nat.mul_comm]

theorem readLE_writeLE (k v : Nat) : readLE (writeLE k v) = v % 256 ^ k := by
  induction k generalizing v with
  | zero => simp [writeLE, readLE, Nat.mod_one]
  | succ k ih =>
      rw [writeLE_succ]
      simp only [readLE, List.foldr_cons] at *
      rw [ih (v / 256)]
      rw [pow_succ, Nat.mul_comm (256 ^ k) 256, Nat.mod_mul]

theorem readLE_writeLE_of_lt {k v : Nat} (h : v < 256 ^ k) :
    readLE (writeLE k v) = v := by
  rw [readLE_writeLE, Nat.mod_eq_of_lt h]

/-! ### Value codec (`serializeValue` / `deserializeValue`)

`SQLitValue` is `kj::Maybe<kj::OneOf<Array<byte>, String, double, int64_t, bool>>`;
the `double` variant is represented by its IEEE-754 bit pattern (the code only
ever moves the 64 bits via `memcpy`), the `int64_t` variant by an `Int` in the
two's-complement value range, and strings/blobs by their raw byte lists. -/

inductive SQLitValue where
  | null
  | int64 (n : Int)
  | float64 (bits : Nat)
  | string (bytes : List Nat)
  | blob (bytes : List Nat)
  | bool (b : Bool)
deriving DecidableEq

/-- Embeds `static_cast<uint64_t>(num)` on an `int64_t`: the two's-complement
bit pattern as a natural number below `2^64`. -/
def toUInt64bits (n : Int) : Nat := (n % (2 ^ 64 : Int)).toNat

/-- Embeds `static_cast<int64_t>(u)` on a `uint64_t`: two's-complement
reinterpretation. -/
def toInt64 (u : Nat) : Int :=
  if u < 2 ^ 63 then (u : Int) else (u : Int) - 2 ^ 64

/-- Embeds `serializeValue`: tag byte, then (for non-null) a little-endian
`u32` length and the payload. Tags: NULL=0, INT64=1, FLOAT64=2, STRING=3,
BLOB=4, BOOL=5.  The length field goes through `static_cast<uint32_t>`,
which `writeLE 4` reproduces (only the low 32 bits are emitted). -/
def serializeValue : SQLitValue → List Nat
  | .null => [0]
  | .int64 n => 1 :: (writeLE 4 8 ++ writeLE 8 (toUInt64bits n))
  | .float64 bits => 2 :: (writeLE 4 8 ++ writeLE 8 bits)
  | .string s => 3 :: (writeLE 4 s.length ++ s)
  | .blob b => 4 :: (writeLE 4 b.length ++ b)
  | .bool b => 5 :: (writeLE 4 1 ++ [if b then 1 else 0])

/-- Embeds `deserializeValue`: consumes bytes from the front of `data` and
returns the decoded value together with the unconsumed remainder; `none`
models a thrown `KJ_REQUIRE` failure. -/
def deserializeValue (data : List Nat) : Option (SQLitValue × List Nat) :=
  match data with
  | [] => none
  | type :: rest =>
    if type = 0 then some (.null, rest)
    else if rest.length < 4 then none
    else
      let len := readLE (rest.take 4)
      let rest2 := rest.drop 4
      if rest2.length < len then none
      else
        let valueData := rest2.take len
        let rest3 := rest2.drop len
        if type = 1 then
          if len = 8 then some (.int64 (toInt64 (readLE valueData)), rest3) else none
        else if type = 2 then
          if len = 8 then some (.float64 (readLE valueData), rest3) else none
        else if type = 3 then some (.string valueData, rest3)
        else if type = 4 then some (.blob valueData, rest3)
        else if type = 5 then
          if len = 1 then some (.bool (valueData.headD 0 != 0), rest3) else none
        else none

/-- Domain of the six variants: `int64_t` values lie in the two's-complement
range, a double bit pattern has 64 bits, and strings/blobs carry at most
`2^32 - 1` bytes (the declared bound of the String/Blob variants, and the
range of the `u32` wire length field). -/
def ValueWF : SQLitValue → Prop
  | .null => True
  | .int64 n => -(2 ^ 63) ≤ n ∧ n < 2 ^ 63
  | .float64 bits => bits < 2 ^ 64
  | .string s => s.length < 2 ^ 32
  | .blob b => b.length < 2 ^ 32
  | .bool _ => True

theorem toInt64_toUInt64bits {n : Int} (h1 : -(2 ^ 63) ≤ n) (h2 : n < 2 ^ 63) :
    toInt64 (toUInt64bits n) = n := by
  have h0 : (0 : Int) ≤ n % 2 ^ 64 := Int.emod_nonneg n (by norm_num)
  have hlt : n % 2 ^ 64 < 2 ^ 64 := Int.emod_lt_of_pos n (by norm_num)
  have hcast : ((n % 2 ^ 64).toNat : Int) = n % 2 ^ 64 := Int.toNat_of_nonneg h0
  have hmod : n % 2 ^ 64 = n ∨ n % 2 ^ 64 = n + 2 ^ 64 := by
    omega
  unfold toInt64 toUInt64bits
  split <;> rename_i hc
  · have : ((n % 2 ^ 64).toNat : Int) < 2 ^ 63 := by exact_mod_cast hc
    omega
  · have : ¬ (((n % 2 ^ 64).toNat : Int) < 2 ^ 63) := by exact_mod_cast hc
    omega

theorem toUInt64bits_lt (n : Int) : toUInt64bits n < 2 ^ 64 := by
  have hlt : n % 2 ^ 64 < 2 ^ 64 := Int.emod_lt_of_pos n (by norm_num)
  have h0 : (0 : Int) ≤ n % 2 ^ 64 := Int.emod_nonneg n (by norm_num)
  unfold toUInt64bits
  omega

theorem deserializeValue_frame (tag L : Nat) (pay extra : List Nat)
    (hpay : pay.length = L) (hL : L < 2 ^ 32) (htag : tag ≠ 0) :
    deserializeValue (tag :: ((writeLE 4 L ++ pay) ++ extra)) =
      (if tag = 1 then
        if L = 8 then some (.int64 (toInt64 (readLE pay)), extra) else none
      else if tag = 2 then
        if L = 8 then some (.float64 (readLE pay), extra) else none
      else if tag = 3 then some (.string pay, extra)
      else if tag = 4 then some (.blob pay, extra)
      else if tag = 5 then
        if L = 1 then some (.bool (pay.headD 0 != 0), extra) else none
      else none) := by
  have hrest : (writeLE 4 L ++ pay) ++ extra = writeLE 4 L ++ (pay ++ extra) :=
    List.append_assoc _ _ _
  have hlen4 : ¬ ((writeLE 4 L ++ (pay ++ extra)).length < 4) := by simp
  have htake4 : (writeLE 4 L ++ (pay ++ extra)).take 4 = writeLE 4 L :=
    List.take_left' (by simp)
  have hdrop4 : (writeLE 4 L ++ (pay ++ extra)).drop 4 = pay ++ extra :=
    List.drop_left' (by simp)
  have h2564 : (256 : Nat) ^ 4 = 2 ^ 32 := by norm_num
  have hreadL : readLE (writeLE 4 L) = L := by
    rw [readLE_writeLE, h2564, Nat.mod_eq_of_lt hL]
  have hlenL : ¬ ((pay ++ extra).length < L) := by simp [hpay]
  have htakeL : (pay ++ extra).take L = pay := List.take_left' hpay
  have hdropL : (pay ++ extra).drop L = extra := List.drop_left' hpay
  simp only [deserializeValue, hrest, if_neg htag, hlen4, if_false, htake4,
    hdrop4, hreadL, hlenL, htakeL, hdropL]

/-- C1: deserializing the bytes produced by `serializeValue` yields the original
value for every variant — bit-exactly: `int64` goes through the two's-complement
`uint64` cast and back, `float64` is carried as its IEEE-754 bit pattern, and
string/blob payloads are the raw bytes.  The decode consumes exactly the encoded
bytes: any `extra` suffix is left untouched as the remainder.  `ValueWF` is the
domain of the variants (two's-complement `int64_t` range, 64-bit float pattern,
string/blob byte length below `2^32`, the range of the `u32` length field). -/
theorem serializeValue_roundTrip (v : SQLitValue) (extra : List Nat)
    (hwf : ValueWF v) :
    deserializeValue (serializeValue v ++ extra) = some (v, extra) := by
  cases v with
  | null => simp [serializeValue, deserializeValue]
  | int64 n =>
      obtain ⟨h1, h2⟩ := hwf
      have hu : toUInt64bits n < 256 ^ 8 := by
        have h := toUInt64bits_lt n
        norm_num at h ⊢
        omega
      have hfr := deserializeValue_frame 1 8 (writeLE 8 (toUInt64bits n)) extra
        (by simp) (by norm_num) (by norm_num)
      simp only [serializeValue, List.cons_append, hfr,
        readLE_writeLE_of_lt hu, toInt64_toUInt64bits h1 h2]
      norm_num
  | float64 bits =>
      have hb : bits < 256 ^ 8 := by
        simp only [ValueWF] at hwf
        norm_num at hwf ⊢
        omega
      have hfr := deserializeValue_frame 2 8 (writeLE 8 bits) extra
        (by simp) (by norm_num) (by norm_num)
      simp only [serializeValue, List.cons_append, hfr,
        readLE_writeLE_of_lt hb]
      norm_num
  | string s =>
      have hfr := deserializeValue_frame 3 s.length s extra rfl hwf (by norm_num)
      simp only [serializeValue, List.cons_append, hfr]
      norm_num
  | blob b =>
      have hfr := deserializeValue_frame 4 b.length b extra rfl hwf (by norm_num)
      simp only [serializeValue, List.cons_append, hfr]
      norm_num
  | bool b =>
      have hfr := deserializeValue_frame 5 1 [if b then 1 else 0] extra
        (by simp) (by norm_num) (by norm_num)
      simp only [serializeValue, List.cons_append, hfr]
      cases b <;> norm_num

/-- C1 witness: a concrete round trip through the codec, with a trailing byte
left unconsumed. -/
theorem serializeValue_roundTrip_witness :
    ValueWF (SQLitValue.string [7, 255]) ∧
    deserializeValue (serializeValue (SQLitValue.string [7, 255]) ++ [9]) =
      some (SQLitValue.string [7, 255], [9]) :=
  ⟨by unfold ValueWF; norm_num,
   serializeValue_roundTrip _ _ (by unfold ValueWF; norm_num)⟩

/-! ### Transaction handle (`SQLitTransaction`)

`SQLitTransaction` carries `bool committed = false` and `bool rolledBack = false`.
Each of `query`, `exec`, `commit`, `rollback` opens with
`JSG_REQUIRE(!committed && !rolledBack, ...)`; `commit` then sets
`committed = true` before building the awaited wire promise, `rollback`
symmetrically sets `rolledBack = true`.  The wire exchange itself is modelled
as an emitted `WireAction` whose success is an external parameter. -/

structure TxState where
  committed : Bool
  rolledBack : Bool
deriving DecidableEq

inductive TxOp where
  | query
  | exec
  | commit
  | rollback
deriving DecidableEq

inductive TxError where
  | completed
deriving DecidableEq

inductive WireAction where
  | query
  | exec
  | txCommit
  | txRollback
deriving DecidableEq

/-- Embeds the four `SQLitTransaction` methods: the completion guard, then the
flag update and the wire exchange the method issues.  An `error` result is the
`JSG_REQUIRE` throw — no wire action is produced. -/
def txApply (s : TxState) (op : TxOp) : Except TxError (TxState × WireAction) :=
  if s.committed || s.rolledBack then Except.error TxError.completed
  else match op with
    | .query => Except.ok (s, .query)
    | .exec => Except.ok (s, .exec)
    | .commit => Except.ok ({ s with committed := true }, .txCommit)
    | .rollback => Except.ok ({ s with rolledBack := true }, .txRollback)

/-- State after one host call: a guard failure leaves the flags untouched. -/
def txStep (s : TxState) (op : TxOp) : TxState :=
  match txApply s op with
  | Except.error _ => s
  | Except.ok (s', _) => s'

/-- Flags after a sequence of host calls on a freshly constructed transaction
(`committed = false, rolledBack = false`). -/
def txRun (ops : List TxOp) : TxState := ops.foldl txStep ⟨false, false⟩

/-- Embeds `SQLitTransaction::commit`: the flag is assigned before the wire
promise is awaited, so the returned state is computed prior to (and
independently of) the wire outcome `wireOk`. -/
def commitThenAwait (s : TxState) (wireOk : Bool) : TxState × Bool :=
  match txApply s TxOp.commit with
  | Except.error _ => (s, false)
  | Except.ok (s', _) => (s', wireOk)

/-- Embeds `SQLitTransaction::rollback`, symmetric to `commitThenAwait`. -/
def rollbackThenAwait (s : TxState) (wireOk : Bool) : TxState × Bool :=
  match txApply s TxOp.rollback with
  | Except.error _ => (s, false)
  | Except.ok (s', _) => (s', wireOk)

/-- C5: once `committed` or `rolledBack` is true, every one of the four
operations fails on entry with the transaction-already-completed error, and no
wire action is produced (the `Except.error` result carries none). -/
theorem txApply_completed_rejects (s : TxState) (op : TxOp)
    (h : s.committed = true ∨ s.rolledBack = true) :
    txApply s op = Except.error TxError.completed := by
  unfold txApply
  rcases h with h | h <;> simp [h]

/-- C5 witness: a committed transaction rejects a concrete `query` call. -/
theorem txApply_completed_rejects_witness :
    txApply ⟨true, false⟩ TxOp.query = Except.error TxError.completed :=
  txApply_completed_rejects ⟨true, false⟩ TxOp.query (Or.inl rfl)

/-- C6: along every sequence of operations from a fresh transaction the two
flags are never both true; moreover a step sets `committed` exactly when it is
a `commit` that passes the guard (both flags false), sets `rolledBack` exactly
when it is a `rollback` that passes the guard, and no step ever clears a
flag. -/
theorem tx_flags_never_both (ops : List TxOp) :
    ((txRun ops).committed && (txRun ops).rolledBack) = false
  ∧ (∀ s op, (txStep s op).committed = true ↔
      (s.committed = true ∨
        (op = TxOp.commit ∧ s.committed = false ∧ s.rolledBack = false)))
  ∧ (∀ s op, (txStep s op).rolledBack = true ↔
      (s.rolledBack = true ∨
        (op = TxOp.rollback ∧ s.committed = false ∧ s.rolledBack = false))) := by
  refine ⟨?_, ?_, ?_⟩
  · have key : ∀ (l : List TxOp) (s : TxState),
        (s.committed && s.rolledBack) = false →
        ((l.foldl txStep s).committed && (l.foldl txStep s).rolledBack) = false := by
      intro l
      induction l with
      | nil => intro s hs; simpa using hs
      | cons op rest ih =>
          intro s hs
          simp only [List.foldl_cons]
          apply ih
          rcases s with ⟨c, r⟩
          cases c <;> cases r <;> cases op <;> simp_all [txStep, txApply]
    exact key ops ⟨false, false⟩ rfl
  · intro s op
    rcases s with ⟨c, r⟩
    cases c <;> cases r <;> cases op <;> simp [txStep, txApply]
  · intro s op
    rcases s with ⟨c, r⟩
    cases c <;> cases r <;> cases op <;> simp [txStep, txApply]

/-- C6 witness: after a concrete `commit; rollback; query` sequence the flags
are not both set, and the step characterizations instantiate at concrete
states. -/
theorem tx_flags_never_both_witness :
    ((txRun [TxOp.commit, TxOp.rollback, TxOp.query]).committed &&
      (txRun [TxOp.commit, TxOp.rollback, TxOp.query]).rolledBack) = false
  ∧ (txStep ⟨false, false⟩ TxOp.commit).committed = true
  ∧ (txStep ⟨false, false⟩ TxOp.rollback).rolledBack = true :=
  ⟨(tx_flags_never_both [TxOp.commit, TxOp.rollback, TxOp.query]).1,
   ((tx_flags_never_both []).2.1 ⟨false, false⟩ TxOp.commit).mpr
     (Or.inr ⟨rfl, rfl, rfl⟩),
   ((tx_flags_never_both []).2.2 ⟨false, false⟩ TxOp.rollback).mpr
     (Or.inr ⟨rfl, rfl, rfl⟩)⟩

/-- C8: when the guard passes, `commit` computes its new state (with
`committed = true`) before the wire exchange, so the flag is set for every wire
outcome — in particular it stays set when the exchange fails
(`wireOk = false`); nothing else in the state changes.  `rollback` is
symmetric with `rolledBack`. -/
theorem commit_flag_set_regardless_of_wire (s : TxState)
    (h : s.committed = false ∧ s.rolledBack = false) :
    (∀ wireOk, (commitThenAwait s wireOk).1 = { s with committed := true })
  ∧ (commitThenAwait s false).1.committed = true
  ∧ (∀ wireOk, (rollbackThenAwait s wireOk).1 = { s with rolledBack := true })
  ∧ (rollbackThenAwait s false).1.rolledBack = true := by
  obtain ⟨hc, hr⟩ := h
  refine ⟨?_, ?_, ?_, ?_⟩ <;>
    simp [commitThenAwait, rollbackThenAwait, txApply, hc, hr]

/-- C8 witness: on a fresh transaction whose wire exchange fails, the flags
are nevertheless set. -/
theorem commit_flag_set_regardless_of_wire_witness :
    (commitThenAwait ⟨false, false⟩ false).1.committed = true
  ∧ (rollbackThenAwait ⟨false, false⟩ false).1.rolledBack = true :=
  ⟨(commit_flag_set_regardless_of_wire ⟨false, false⟩ ⟨rfl, rfl⟩).2.1,
   (commit_flag_set_regardless_of_wire ⟨false, false⟩ ⟨rfl, rfl⟩).2.2.2⟩

/-! ### Connection pool (`SQLitConnectionPool`)

`available` is a `kj::Vector<Own<SQLitConnection>>` used as a stack
(`add` appends, `back`/`removeLast` take the newest); `waiters` is likewise a
`kj::Vector` of fulfillers, so `release` serves `lock->back()` — the most
recently added fulfiller.  `inUse` is a `uint32_t`, so its increments and
decrements wrap modulo `2^32`.  List heads are the oldest entries. -/

def UINT32_MOD : Nat := 2 ^ 32

/-- Embeds `++inUse` on a `uint32_t`. -/
def inc32 (n : Nat) : Nat := (n + 1) % UINT32_MOD

/-- Embeds `--inUse` on a `uint32_t`. -/
def dec32 (n : Nat) : Nat := (n + (UINT32_MOD - 1)) % UINT32_MOD

structure Conn where
  id : Nat
  connected : Bool
deriving DecidableEq

structure PoolState where
  available : List Conn
  inUse : Nat
  waiters : List Nat
  pending : Nat
deriving DecidableEq

inductive ReleaseOutcome where
  | toWaiter (w : Nat) (c : Conn)
  | toIdle
  | dropped
deriving DecidableEq

/-- Embeds `SQLitConnectionPool::release`: decrement `inUse`; if the waiter
vector is non-empty, fulfill its `back()` (the most recently enqueued waiter)
with the connection — with no `isConnected()` test — remove it and re-increment
`inUse`; otherwise push the connection onto the idle vector only when it is
still connected, else drop it. -/
def release (s : PoolState) (c : Conn) : PoolState × ReleaseOutcome :=
  if s.waiters.isEmpty then
    if c.connected then
      ({ s with inUse := dec32 s.inUse, available := s.available ++ [c] },
       .toIdle)
    else
      ({ s with inUse := dec32 s.inUse }, .dropped)
  else
    ({ s with inUse := inc32 (dec32 s.inUse), waiters := s.waiters.dropLast },
     .toWaiter (s.waiters.getLastD 0) c)

/-- Small-step semantics of `SQLitConnectionPool::acquire`/`release` for pool
size `ps`.  `acquire` has one suspension point — `co_await conn->connect()` —
sitting between the `inUse < poolSize` check and the `++inUse`; it is modelled
by splitting the fresh-connect path into `connectStart` (the guard, taken
atomically) and `connectFinish`/`connectFail` (resumption), with `pending`
counting acquires suspended inside `connect()`.  The other paths of `acquire`,
and all of `release`, contain no awaits and are single steps. -/
inductive PoolStep (ps : Nat) : PoolState → PoolState → Prop where
  | acquirePop (s : PoolState) (c : Conn) :
      s.available.getLast? = some c →
      PoolStep ps s
        { s with available := s.available.dropLast, inUse := inc32 s.inUse }
  | connectStart (s : PoolState) :
      s.available = [] → s.inUse < ps →
      PoolStep ps s { s with pending := s.pending + 1 }
  | connectFinish (s : PoolState) :
      0 < s.pending →
      PoolStep ps s
        { s with pending := s.pending - 1, inUse := inc32 s.inUse }
  | connectFail (s : PoolState) :
      0 < s.pending →
      PoolStep ps s { s with pending := s.pending - 1 }
  | acquireWait (s : PoolState) (w : Nat) :
      s.available = [] → ¬ s.inUse < ps →
      PoolStep ps s { s with waiters := s.waiters ++ [w] }
  | doRelease (s : PoolState) (c : Conn) :
      PoolStep ps s (release s c).1

/-- States reachable from a freshly constructed pool (no idle connections,
`inUse = 0`, no waiters, no connect in flight). -/
inductive PoolReachable (ps : Nat) : PoolState → Prop where
  | init : PoolReachable ps ⟨[], 0, [], 0⟩
  | step {s s' : PoolState} :
      PoolReachable ps s → PoolStep ps s s' → PoolReachable ps s'

/-- C2 counterexample: with waiters enqueued in the order `10`, `20` (so `10`
is the head, the earliest), `release` hands the connection to waiter `20`, not
to the head. -/
theorem release_not_fifo_counterexample :
    (release ⟨[], 2, [10, 20], 0⟩ ⟨1, true⟩).2 =
      ReleaseOutcome.toWaiter 20 ⟨1, true⟩
  ∧ [10, 20].head? = some 10
  ∧ (20 : Nat) ≠ 10 := by
  refine ⟨?_, rfl, by decide⟩
  rfl

/-- C2 amended: waiters are served in LIFO order — whenever the waiter queue
is non-empty, `release` dequeues the waiter that enqueued latest (the back of
the vector), hands it the connection, and the net `inUse` count is unchanged
(decrement then re-increment). -/
theorem release_serves_waiters_lifo (s : PoolState) (c : Conn) (w : Nat)
    (h : s.waiters.getLast? = some w) :
    (release s c).2 = ReleaseOutcome.toWaiter w c
  ∧ (release s c).1.waiters = s.waiters.dropLast
  ∧ (release s c).1.inUse = inc32 (dec32 s.inUse)
  ∧ (release s c).1.available = s.available := by
  obtain ⟨av, iu, ws, pd⟩ := s
  cases ws with
  | nil => simp at h
  | cons a l =>
      have h2 : (a :: l).getLastD 0 = w := by
        rw [List.getLastD_eq_getLast?]
        rw [show (a :: l).getLast? = some w from h]
        rfl
      refine ⟨?_, rfl, rfl, rfl⟩
      rw [← h2]
      rfl

/-- C2 amended witness: a release over the concrete waiter queue `[10, 20]`
grants waiter `20` and leaves `[10]`. -/
theorem release_serves_waiters_lifo_witness :
    (release ⟨[], 2, [10, 20], 0⟩ ⟨1, true⟩).2 =
      ReleaseOutcome.toWaiter 20 ⟨1, true⟩
  ∧ (release ⟨[], 2, [10, 20], 0⟩ ⟨1, true⟩).1.waiters = [10] :=
  ⟨(release_serves_waiters_lifo ⟨[], 2, [10, 20], 0⟩ ⟨1, true⟩ 20 rfl).1,
   (release_serves_waiters_lifo ⟨[], 2, [10, 20], 0⟩ ⟨1, true⟩ 20 rfl).2.1⟩

/-- C4 counterexample: a connection with `isConnected() = false` released
while waiter `7` is queued is handed to the waiter, not discarded. -/
theorem release_hands_disconnected_to_waiter :
    (release ⟨[], 1, [7], 0⟩ ⟨3, false⟩).2 = ReleaseOutcome.toWaiter 7 ⟨3, false⟩
  ∧ (Conn.mk 3 false).connected = false := by
  exact ⟨rfl, rfl⟩

/-- C4 amended: when the waiter queue is non-empty, `release` hands the
connection to the (latest) waiter unconditionally — `isConnected()` is not
consulted; the `isConnected()` test guards only the idle-push path taken when
no waiter exists, where a disconnected connection is discarded. -/
theorem release_handoff_unconditional (s : PoolState) (c : Conn) :
    (∀ w, s.waiters.getLast? = some w →
      (release s c).2 = ReleaseOutcome.toWaiter w c)
  ∧ (s.waiters = [] → c.connected = false →
      (release s c).2 = ReleaseOutcome.dropped
      ∧ (release s c).1.available = s.available) := by
  obtain ⟨av, iu, ws, pd⟩ := s
  obtain ⟨cid, cc⟩ := c
  constructor
  · intro w h
    cases ws with
    | nil => simp at h
    | cons a l =>
        have h2 : (a :: l).getLastD 0 = w := by
          rw [List.getLastD_eq_getLast?]
          rw [show (a :: l).getLast? = some w from h]
          rfl
        rw [← h2]
        rfl
  · intro hw hc
    cases hw
    cases hc
    exact ⟨rfl, rfl⟩

/-- C4 amended witness: a disconnected connection goes to the waiter when one
exists, and is dropped (idle stack untouched) when none does. -/
theorem release_handoff_unconditional_witness :
    (release ⟨[], 1, [7], 0⟩ ⟨3, false⟩).2 = ReleaseOutcome.toWaiter 7 ⟨3, false⟩
  ∧ (release ⟨[], 1, [], 0⟩ ⟨3, false⟩).2 = ReleaseOutcome.dropped :=
  ⟨(release_handoff_unconditional ⟨[], 1, [7], 0⟩ ⟨3, false⟩).1 7 rfl,
   ((release_handoff_unconditional ⟨[], 1, [], 0⟩ ⟨3, false⟩).2 rfl rfl).1⟩

/-- C7: the bound `inUse + |available| ≤ poolSize` is NOT preserved across the
suspension point inside `connect()`: with `poolSize = 1`, two acquires that
both pass the `inUse < poolSize` check before either's `connect()` resolves
drive the pool to a reachable state with `inUse = 2`. -/
theorem pool_bound_violated_across_connect :
    ∃ s : PoolState, PoolReachable 1 s ∧ 1 < s.inUse + s.available.length := by
  refine ⟨⟨[], 2, [], 0⟩, ?_, by norm_num⟩
  have h0 : PoolReachable 1 ⟨[], 0, [], 0⟩ := PoolReachable.init
  have h1 : PoolReachable 1 ⟨[], 0, [], 1⟩ :=
    h0.step (PoolStep.connectStart _ rfl (by norm_num))
  have h2 : PoolReachable 1 ⟨[], 0, [], 2⟩ :=
    h1.step (PoolStep.connectStart _ rfl (by norm_num))
  have h3 : PoolReachable 1 ⟨[], 1, [], 1⟩ :=
    h2.step (PoolStep.connectFinish _ (by norm_num))
  exact h3.step (PoolStep.connectFinish _ (by norm_num))

/-! ### Frame codec and connection read paths

Responses are parsed from a byte stream, modelled as the `List Nat` of bytes
the socket will deliver; `stream->read(n)` takes the next `n` bytes and fails
(`truncated`) when the stream ends first.  `KJ_REQUIRE` failures while
validating protocol data are `protocolError`; a well-formed ERROR frame
surfaces as `serverError`; a zero success flag as `queryFailed`. -/

def MAGIC_NUMBER : Nat := 0x544C5153
def PROTOCOL_VERSION : Nat := 1
def HEADER_SIZE : Nat := 12
def MAX_MESSAGE_SIZE : Nat := 16 * 1024 * 1024
def TYPE_RESULT : Nat := 128
def TYPE_ERROR : Nat := 129
def TYPE_PING : Nat := 6
def TYPE_PONG : Nat := 134

structure RespHeader where
  magic : Nat
  version : Nat
  type : Nat
  flags : Nat
  requestId : Nat
deriving DecidableEq

/-- Embeds `parseHeader`: requires 12 bytes, decodes the five fields, and
checks `magic == MAGIC_NUMBER` and `version <= PROTOCOL_VERSION`; `none`
models the `KJ_REQUIRE` throw. -/
def parseHeader (data : List Nat) : Option RespHeader :=
  if data.length < HEADER_SIZE then none
  else
    let h : RespHeader :=
      { magic := readLE (data.take 4)
        version := data.getD 4 0
        type := data.getD 5 0
        flags := readLE ((data.drop 6).take 2)
        requestId := readLE ((data.drop 8).take 4) }
    if h.magic = MAGIC_NUMBER then
      if h.version ≤ PROTOCOL_VERSION then some h else none
    else none

inductive RespError where
  | truncated
  | protocolError
  | serverError (msg : List Nat)
  | queryFailed
deriving DecidableEq

/-- Embeds `stream->read(buf, n)`: the next `n` bytes of the stream, and the
stream that remains. -/
def readBytesE (n : Nat) (s : List Nat) :
    Except RespError (List Nat × List Nat) :=
  if n ≤ s.length then Except.ok (s.take n, s.drop n)
  else Except.error RespError.truncated

/-- Embeds `SQLitConnection::readResponse`: header, then for `TYPE_ERROR` the
error length — capped by `KJ_REQUIRE(errorLen <= MAX_MESSAGE_SIZE)` BEFORE the
body read — then the message; otherwise the one-byte success flag. -/
def readResponse (s : List Nat) : Except RespError (List Nat) := do
  let (headerBuf, s) ← readBytesE HEADER_SIZE s
  match parseHeader headerBuf with
  | none => Except.error RespError.protocolError
  | some header =>
    if header.type = TYPE_ERROR then do
      let (lenBuf, s) ← readBytesE 4 s
      let errorLen := readLE lenBuf
      if errorLen ≤ MAX_MESSAGE_SIZE then do
        let (errBuf, _) ← readBytesE errorLen s
        Except.error (RespError.serverError errBuf)
      else Except.error RespError.protocolError
    else do
      let (successBuf, _) ← readBytesE 1 s
      if successBuf.headD 0 = 1 then Except.ok (headerBuf ++ [1])
      else Except.error RespError.queryFailed

/-- Embeds the per-cell value parsing inlined in `SQLitConnection::query`:
type byte; `VALUE_NULL` short-circuits; otherwise a `u32` length — read with
no size cap — then that many bytes, dispatched on the type tag.  (For INT64 /
FLOAT64 / BOOL the code reads from the buffer without a length check; `readLE`
over the buffer models the same bytes.) -/
def parseCell (s : List Nat) : Except RespError (SQLitValue × List Nat) := do
  let (typeBuf, s) ← readBytesE 1 s
  let valueType := typeBuf.headD 0
  if valueType = 0 then Except.ok (SQLitValue.null, s)
  else do
    let (valLenBuf, s) ← readBytesE 4 s
    let valLen := readLE valLenBuf
    let (valData, s) ← readBytesE valLen s
    if valueType = 1 then
      Except.ok (SQLitValue.int64 (toInt64 (readLE valData)), s)
    else if valueType = 2 then
      Except.ok (SQLitValue.float64 (readLE valData), s)
    else if valueType = 3 then Except.ok (SQLitValue.string valData, s)
    else if valueType = 4 then Except.ok (SQLitValue.blob valData, s)
    else if valueType = 5 then
      Except.ok (SQLitValue.bool (valData.headD 0 != 0), s)
    else Except.error RespError.protocolError

/-- Embeds the column-name loop of `SQLitConnection::query`: per column a
`u32` length — read with no size cap — then that many name bytes. -/
def parseColumns : Nat → List Nat → Except RespError (List (List Nat) × List Nat)
  | 0, s => Except.ok ([], s)
  | k + 1, s => do
    let (lenBuf, s) ← readBytesE 4 s
    let nameLen := readLE lenBuf
    let (nameBuf, s) ← readBytesE nameLen s
    let (rest, s2) ← parseColumns k s
    Except.ok (nameBuf :: rest, s2)

/-- Embeds the inner cells loop of `SQLitConnection::query`. -/
def parseRowCells : Nat → List Nat → Except RespError (List SQLitValue × List Nat)
  | 0, s => Except.ok ([], s)
  | c + 1, s => do
    let (v, s) ← parseCell s
    let (rest, s2) ← parseRowCells c s
    Except.ok (v :: rest, s2)

/-- Embeds the rows loop of `SQLitConnection::query`. -/
def parseRows (cols : Nat) :
    Nat → List Nat → Except RespError (List (List SQLitValue) × List Nat)
  | 0, s => Except.ok ([], s)
  | r + 1, s => do
    let (row, s) ← parseRowCells cols s
    let (rest, s2) ← parseRows cols r s
    Except.ok (row :: rest, s2)

/-- Embeds the response-reading path of `SQLitConnection::query`: header;
`TYPE_ERROR` → error length (no cap) and message, raised as `serverError`;
otherwise require `TYPE_RESULT`, success flag, column count byte, column
names, `u32` row count, then the cells. -/
def queryParse (s : List Nat) :
    Except RespError (List (List Nat) × List (List SQLitValue)) := do
  let (headerBuf, s) ← readBytesE HEADER_SIZE s
  match parseHeader headerBuf with
  | none => Except.error RespError.protocolError
  | some header =>
    if header.type = TYPE_ERROR then do
      let (lenBuf, s) ← readBytesE 4 s
      let errorLen := readLE lenBuf
      let (errBuf, _) ← readBytesE errorLen s
      Except.error (RespError.serverError errBuf)
    else if header.type = TYPE_RESULT then do
      let (successBuf, s) ← readBytesE 1 s
      if successBuf.headD 0 = 1 then do
        let (colCountBuf, s) ← readBytesE 1 s
        let colCount := colCountBuf.headD 0
        let (columns, s) ← parseColumns colCount s
        let (rowCountBuf, s) ← readBytesE 4 s
        let rowCount := readLE rowCountBuf
        let (rows, _) ← parseRows colCount rowCount s
        Except.ok (columns, rows)
      else Except.error RespError.queryFailed
    else Except.error RespError.protocolError

/-- Embeds `SQLitConnection::ping`'s request construction: a 12-byte frame —
magic, version, `TYPE_PING`, zero flags, request id — and nothing else. -/
def pingRequest (requestId : Nat) : List Nat :=
  writeLE 4 MAGIC_NUMBER ++
    ([PROTOCOL_VERSION, TYPE_PING] ++ (writeLE 2 0 ++ writeLE 4 requestId))

/-- Embeds `SQLitConnection::ping`'s response handling: read 12 header bytes,
validate them with `parseHeader`, return `type == TYPE_PONG`. -/
def pingResponse (s : List Nat) : Except RespError Bool := do
  let (headerBuf, _) ← readBytesE HEADER_SIZE s
  match parseHeader headerBuf with
  | none => Except.error RespError.protocolError
  | some header => Except.ok (header.type == TYPE_PONG)

theorem readBytesE_exact {n : Nat} (a b : List Nat) (h : a.length = n) :
    readBytesE n (a ++ b) = Except.ok (a, b) := by
  unfold readBytesE
  rw [if_pos (by simp [h])]
  rw [List.take_left' h, List.drop_left' h]

/-- C9: the PING frame is header-only — exactly `HEADER_SIZE` bytes with the
type byte `TYPE_PING` (6) and the correct magic/version — and, whenever the
response header passes magic and version validation, `ping` returns `true`
iff the response type field equals `TYPE_PONG` (134). -/
theorem ping_headerOnly_pong_iff (rid : Nat) (s rest : List Nat)
    (h : RespHeader) (hlen : s.length = HEADER_SIZE)
    (hp : parseHeader s = some h) :
    (pingRequest rid).length = HEADER_SIZE
  ∧ (pingRequest rid).getD 5 0 = TYPE_PING
  ∧ (pingRequest rid).getD 4 0 = PROTOCOL_VERSION
  ∧ readLE ((pingRequest rid).take 4) = MAGIC_NUMBER
  ∧ (pingResponse (s ++ rest) = Except.ok true ↔ h.type = TYPE_PONG) := by
  refine ⟨by simp [pingRequest, HEADER_SIZE], rfl, rfl, ?_, ?_⟩
  · have : (pingRequest rid).take 4 = writeLE 4 MAGIC_NUMBER :=
      List.take_left' (by simp)
    rw [this, readLE_writeLE_of_lt]
    unfold MAGIC_NUMBER
    norm_num
  · unfold pingResponse
    rw [show readBytesE HEADER_SIZE (s ++ rest) = Except.ok (s, rest) from
      readBytesE_exact s rest hlen]
    simp only [Except.bind, bind, hp]
    constructor
    · intro hok
      have := congrArg (fun x => match x with
        | Except.ok b => b
        | Except.error _ => false) hok
      simpa using this
    · intro ht
      simp [ht]

/-- C9 witness: a concrete PONG response header makes `ping` return true. -/
theorem ping_headerOnly_pong_iff_witness :
    (pingRequest 0).length = HEADER_SIZE
  ∧ (pingResponse ((writeLE 4 MAGIC_NUMBER ++
      ([1, 134] ++ (writeLE 2 0 ++ writeLE 4 0))) ++ []) = Except.ok true ↔
      (134 : Nat) = TYPE_PONG) :=
  ⟨(ping_headerOnly_pong_iff 0
      (writeLE 4 MAGIC_NUMBER ++ ([1, 134] ++ (writeLE 2 0 ++ writeLE 4 0))) []
      ⟨MAGIC_NUMBER, 1, 134, 0, 0⟩ (by rfl) (by rfl)).1,
   (ping_headerOnly_pong_iff 0
      (writeLE 4 MAGIC_NUMBER ++ ([1, 134] ++ (writeLE 2 0 ++ writeLE 4 0))) []
      ⟨MAGIC_NUMBER, 1, 134, 0, 0⟩ (by rfl) (by rfl)).2.2.2.2⟩

/-! ### The 16 MiB size cap -/

/-- A column name of 16 MiB + 1 bytes (every byte `'A'`). -/
def bigName : List Nat := List.replicate (MAX_MESSAGE_SIZE + 1) 65

def capTail2 : List Nat :=
  writeLE 4 (MAX_MESSAGE_SIZE + 1) ++ (bigName ++ writeLE 4 0)

def capTail1 : List Nat := [1] ++ capTail2

def capBody : List Nat := [1] ++ capTail1

def capHeaderBytes : List Nat :=
  writeLE 4 MAGIC_NUMBER ++
    ([PROTOCOL_VERSION, TYPE_RESULT] ++ (writeLE 2 0 ++ writeLE 4 0))

/-- A RESULT response whose single column name is declared (and delivered)
with 16 MiB + 1 bytes, followed by a zero row count. -/
def capStream : List Nat := capHeaderBytes ++ capBody

theorem parseColumns_one (s : List Nat) :
    parseColumns 1 s = (do
      let (lenBuf, s) ← readBytesE 4 s
      let (nameBuf, s) ← readBytesE (readLE lenBuf) s
      let (rest, s2) ← parseColumns 0 s
      Except.ok (nameBuf :: rest, s2)) := rfl

theorem except_bind_ok {α β : Type} (a : α) (f : α → Except RespError β) :
    (Except.ok a >>= f) = f a := rfl

theorem parseColumns_reads_bigName :
    parseColumns 1 capTail2 = Except.ok ([bigName], writeLE 4 0) := by
  have hcap : MAX_MESSAGE_SIZE + 1 < 256 ^ 4 := by norm_num [MAX_MESSAGE_SIZE]
  have hbig : bigName.length = MAX_MESSAGE_SIZE + 1 := by simp [bigName]
  unfold capTail2
  rw [parseColumns_one]
  rw [readBytesE_exact (writeLE 4 (MAX_MESSAGE_SIZE + 1))
    (bigName ++ writeLE 4 0) (length_writeLE 4 (MAX_MESSAGE_SIZE + 1))]
  rw [except_bind_ok]
  simp only [readLE_writeLE_of_lt hcap]
  rw [readBytesE_exact bigName (writeLE 4 0) hbig]
  rw [except_bind_ok]
  rfl

/-- C3 counterexample: `query`'s response parsing imposes no 16 MiB cap — a
column-name length field of `MAX_MESSAGE_SIZE + 1` is read in full and the
operation succeeds instead of failing with a `ProtocolError`. -/
theorem queryParse_no_cap_counterexample :
    MAX_MESSAGE_SIZE < MAX_MESSAGE_SIZE + 1
  ∧ bigName.length = MAX_MESSAGE_SIZE + 1
  ∧ queryParse capStream = Except.ok ([bigName], []) := by
  refine ⟨Nat.lt_succ_self _, by simp [bigName], ?_⟩
  have hlen : capHeaderBytes.length = HEADER_SIZE := by
    norm_num [capHeaderBytes, HEADER_SIZE]
  have h1 : readBytesE HEADER_SIZE (capHeaderBytes ++ capBody) =
      Except.ok (capHeaderBytes, capBody) := readBytesE_exact _ _ hlen
  have hph : parseHeader capHeaderBytes =
      some ⟨MAGIC_NUMBER, PROTOCOL_VERSION, TYPE_RESULT, 0, 0⟩ := by rfl
  have h2 : readBytesE 1 capBody = Except.ok ([1], capTail1) := by
    unfold capBody
    exact readBytesE_exact [1] capTail1 rfl
  have h3 : readBytesE 1 capTail1 = Except.ok ([1], capTail2) := by
    unfold capTail1
    exact readBytesE_exact [1] capTail2 rfl
  unfold queryParse capStream
  rw [h1, except_bind_ok]
  dsimp only
  rw [hph]
  dsimp only
  norm_num [TYPE_ERROR, TYPE_RESULT]
  rw [h2, except_bind_ok]
  dsimp only
  norm_num
  rw [h3, except_bind_ok]
  dsimp only
  simp only [List.head?_cons, Option.getD_some]
  rw [parseColumns_reads_bigName, except_bind_ok]
  dsimp only
  rfl

/-- C3 amended: the 16 MiB cap exists only in `readResponse`, and only for
the error-message length: there, a length field exceeding `MAX_MESSAGE_SIZE`
fails with a `ProtocolError` before the message bytes are read (the stream
after the length field is irrelevant).  The length fields read by `query`
(error message, column names, values) and `beginTransaction` (transaction id)
are not checked against the cap. -/
theorem readResponse_caps_error_length (hdrBuf lenBuf rest : List Nat)
    (hdr : RespHeader) (h12 : hdrBuf.length = HEADER_SIZE)
    (hp : parseHeader hdrBuf = some hdr) (ht : hdr.type = TYPE_ERROR)
    (h4 : lenBuf.length = 4) (hbig : MAX_MESSAGE_SIZE < readLE lenBuf) :
    readResponse (hdrBuf ++ (lenBuf ++ rest)) =
      Except.error RespError.protocolError := by
  unfold readResponse
  rw [readBytesE_exact hdrBuf (lenBuf ++ rest) h12, except_bind_ok]
  dsimp only
  rw [hp]
  dsimp only
  rw [if_pos ht]
  rw [readBytesE_exact lenBuf rest h4, except_bind_ok]
  dsimp only
  rw [if_neg (by omega)]

/-- C3 amended witness: an ERROR frame declaring a 16 MiB + 1 error message is
rejected with a `ProtocolError` with no message bytes on the stream at all —
the cap fires before the oversized read is attempted. -/
theorem readResponse_caps_error_length_witness :
    readResponse ((writeLE 4 MAGIC_NUMBER ++
        ([1, 129] ++ (writeLE 2 0 ++ writeLE 4 0))) ++
      (writeLE 4 (MAX_MESSAGE_SIZE + 1) ++ [])) =
      Except.error RespError.protocolError :=
  readResponse_caps_error_length _ _ _
    ⟨MAGIC_NUMBER, 1, TYPE_ERROR, 0, 0⟩ rfl rfl rfl rfl (by decide)

/-! ### Cursor row marshalling (`SQLitCursor`)

`next`, `toArray` and `one` each run the identical loop
`for (size_t i = 0; i < columns.size() && i < row.size(); ++i)`, setting the
host object's property `columns[i]` to the marshalled `row[i]`.  `buildRow`
embeds that loop body once; the host object is the list of
(column name, marshalled value) pairs the loop sets, and the host-side numeric
conversions (`js.num(double(int64))`, `js.num(double)`) are carried
symbolically. -/

inductive HostValue where
  | null
  | bytes (b : List Nat)
  | str (s : List Nat)
  | numFromFloat (bits : Nat)
  | numFromInt64 (n : Int)
  | boolean (b : Bool)
deriving DecidableEq

/-- Embeds the `KJ_SWITCH_ONEOF` marshalling of one cell to the host. -/
def marshalValue : SQLitValue → HostValue
  | .null => .null
  | .blob b => .bytes b
  | .string s => .str s
  | .float64 bits => .numFromFloat bits
  | .int64 n => .numFromInt64 n
  | .bool b => .boolean b

/-- Embeds the row loop shared by `next`/`toArray`/`one`: index `i` runs while
`i < columns.size() && i < row.size()`, reading `columns[i]` and `row[i]`. -/
def buildRow (columns : List (List Nat)) (row : List SQLitValue) :
    List (List Nat × HostValue) :=
  (List.range (min columns.length row.length)).map
    (fun i => (columns.getD i [], marshalValue (row.getD i SQLitValue.null)))

structure CursorState where
  columns : List (List Nat)
  rows : List (List SQLitValue)
  currentRow : Nat

/-- Embeds `SQLitCursor::next`: done when `currentRow >= rows.size()`,
otherwise marshal `rows[currentRow]` and advance the cursor. -/
def cursorNext (cur : CursorState) :
    Option (List (List Nat × HostValue)) × CursorState :=
  if cur.rows.length ≤ cur.currentRow then (none, cur)
  else
    (some (buildRow cur.columns (cur.rows.getD cur.currentRow [])),
     { cur with currentRow := cur.currentRow + 1 })

/-- Embeds `SQLitCursor::toArray`: marshal every row. -/
def cursorToArray (cur : CursorState) : List (List (List Nat × HostValue)) :=
  cur.rows.map (buildRow cur.columns)

/-- Embeds `SQLitCursor::one`: `JSG_REQUIRE(rows.size() == 1)`, then marshal
`rows[0]`. -/
def cursorOne (cur : CursorState) : Option (List (List Nat × HostValue)) :=
  if cur.rows.length = 1 then some (buildRow cur.columns (cur.rows.getD 0 []))
  else none

theorem buildRow_nil_left (row : List SQLitValue) : buildRow [] row = [] := by
  simp [buildRow]

theorem buildRow_nil_right (columns : List (List Nat)) :
    buildRow columns [] = [] := by
  simp [buildRow]

theorem buildRow_cons (c : List Nat) (cs : List (List Nat)) (v : SQLitValue)
    (vs : List SQLitValue) :
    buildRow (c :: cs) (v :: vs) = (c, marshalValue v) :: buildRow cs vs := by
  have hmin : min (cs.length + 1) (vs.length + 1) = min cs.length vs.length + 1 := by
    omega
  simp only [buildRow, List.length_cons, hmin, List.range_succ_eq_map,
    List.map_cons, List.map_map]
  rw [List.cons_eq_cons]
  refine ⟨rfl, ?_⟩
  apply List.map_congr_left
  intro i _
  simp [Function.comp]

theorem buildRow_eq_zip (columns : List (List Nat)) (row : List SQLitValue) :
    buildRow columns row =
      (columns.zip row).map (fun p => (p.1, marshalValue p.2)) := by
  induction columns generalizing row with
  | nil => simp [buildRow_nil_left]
  | cons c cs ih =>
      cases row with
      | nil => simp [buildRow_nil_right]
      | cons v vs => rw [buildRow_cons, ih, List.zip_cons_cons, List.map_cons]

theorem buildRow_length (columns : List (List Nat)) (row : List SQLitValue) :
    (buildRow columns row).length = min columns.length row.length := by
  simp [buildRow]

/-- C10: the row objects built by `next`, `toArray` and `one` take exactly
`min (|columns|, |row|)` cells; every cell pairs `columns[i]` with the
marshalled `row[i]` at the same in-bounds index (the `zip` characterization —
hence neither array is ever indexed out of bounds), and surplus cells or
surplus column names are silently dropped rather than failing. -/
theorem cursor_builds_min_cells (cur : CursorState)
    (obj : List (List Nat × HostValue)) :
    (∀ columns row, buildRow columns row =
        (columns.zip row).map (fun p => (p.1, marshalValue p.2))
      ∧ (buildRow columns row).length = min columns.length row.length)
  ∧ ((cursorNext cur).1 = some obj →
      obj.length = min cur.columns.length
        (cur.rows.getD cur.currentRow []).length)
  ∧ (obj ∈ cursorToArray cur →
      ∃ row ∈ cur.rows, obj = buildRow cur.columns row
        ∧ obj.length = min cur.columns.length row.length)
  ∧ (cursorOne cur = some obj →
      cur.rows.length = 1
      ∧ obj.length = min cur.columns.length (cur.rows.getD 0 []).length) := by
  refine ⟨fun columns row => ⟨buildRow_eq_zip columns row,
      buildRow_length columns row⟩, ?_, ?_, ?_⟩
  · intro h
    unfold cursorNext at h
    split at h
    · cases h
    · injection h with h
      rw [← h, buildRow_length]
  · intro h
    rcases List.mem_map.mp h with ⟨row, hrow, hobj⟩
    exact ⟨row, hrow, hobj.symm, by rw [← hobj, buildRow_length]⟩
  · intro h
    unfold cursorOne at h
    split at h
    · rename_i hone
      injection h with h
      exact ⟨hone, by rw [← h, buildRow_length]⟩
    · cases h

/-- C10 witness: one column and a two-cell row — the surplus cell is ignored
and the object has `min 1 2 = 1` entry. -/
theorem cursor_builds_min_cells_witness :
    cursorOne ⟨[[65]], [[SQLitValue.int64 1, SQLitValue.bool true]], 0⟩ =
      some [([65], HostValue.numFromInt64 1)]
  ∧ ([([65], HostValue.numFromInt64 1)] :
      List (List Nat × HostValue)).length = min 1 2 :=
  ⟨rfl,
   ((cursor_builds_min_cells
      ⟨[[65]], [[SQLitValue.int64 1, SQLitValue.bool true]], 0⟩
      [([65], HostValue.numFromInt64 1)]).2.2.2 rfl).2⟩

end SQLit
